import Mathlib

/-!
Verification development for the autoserverless news-batch pipeline.

The definitions below are a shallow embedding of the repository's data model
and algorithms: the batch-task state machine and streaming protocol of the
client (`App.tsx` variants), the serverless orchestrator (`api/automate`),
and the text-layout logic of `utils/canvas.ts`.  Strings from the source are
modelled as `List Char` where character-level reasoning is needed and as
`String` otherwise; JavaScript numbers used only for comparisons (measured
text widths, font sizes, timestamps) are modelled as `ℚ`, `ℤ` or `ℕ`.
-/

namespace AutoSrv

/-- Task status enum from `types.ts`, as used by both App variants and the
serverless handler. -/
inductive TaskStatus where
  | PENDING
  | GATHERING
  | GATHERED
  | PROCESSING
  | GENERATING_IMAGE
  | COMPOSING
  | UPLOADING
  | SENDING_WEBHOOK
  | DONE
  | ERROR
deriving DecidableEq

/-- The `result` bundle stored on a task when it reaches DONE. -/
structure TaskResult where
  headline : String
  imageUrl : String
  caption : String
  sourceUrl : String
  sourceName : String
deriving DecidableEq

/-- One `BatchTask` record: per-category task with status and the optional
`error` / `result` fields. -/
structure BatchTask where
  id : String
  categoryName : String
  status : TaskStatus
  error : Option String := none
  result : Option TaskResult := none
deriving DecidableEq

/-- A news article as consumed by the orchestrator: only the fields the
embedded code paths read (`link`, `pubDate`, `image_url`). -/
structure Article where
  link : String
  pubDate : Option String := none
  image_url : Option String := none
deriving DecidableEq

/-- The analysis bundle produced by the analysis collaborator. -/
structure NewsAnalysis where
  headline : String
  highlightPhrases : List String
  caption : String
  imagePrompt : String
  sourceName : String
deriving DecidableEq

/-- Intermediate record linking a task id to its analysis and chosen article
(`CollectedData` in both orchestrator variants). -/
structure CollectedData where
  taskId : String
  analysis : NewsAnalysis
  article : Article
deriving DecidableEq

/-- The delivery payload (`WebhookPayload` in `types.ts`). -/
structure WebhookPayload where
  headline : String
  imageUrl : String
  summary : String
  newsLink : String
  status : String
deriving DecidableEq

/-! ### C1: aggregate/trending merge (client `App.tsx`, aggregate branch)

The source builds `new Map(articles.map(article => [article.link, article]))`
and takes `.values()`.  A JavaScript `Map` keeps keys in first-insertion
order, but a repeated `set` on an existing key overwrites the stored value,
so for each link the surviving record is the LAST occurrence, placed at the
position of the first occurrence. -/

/-- One `Map.set` step of `new Map(entries)`: if the key (`link`) is already
present, overwrite the stored value in place; otherwise append the new
key-value pair. -/
def mapSetByLink (acc : List Article) (a : Article) : List Article :=
  if (acc.map Article.link).contains a.link then
    acc.map (fun b => if b.link = a.link then a else b)
  else
    acc ++ [a]

/-- Deduplication `Array.from(new Map(articles.map(a => [a.link, a])).values())`. -/
def dedupByLink (arts : List Article) : List Article :=
  arts.foldl mapSetByLink []

/-- The sort comparator from the aggregate branch:
`(a, b) => { if (!a.pubDate || !b.pubDate) return 0;
             return new Date(b.pubDate).getTime() - new Date(a.pubDate).getTime(); }`.
`getTime` abstracts the platform's date parsing. -/
def pubCmp (getTime : String → ℤ) (a b : Article) : ℤ :=
  match a.pubDate, b.pubDate with
  | some x, some y => getTime y - getTime x
  | _, _ => 0

/-- Stable insertion of one element into a comparator-sorted list: the new
element goes after every element it does not strictly precede. -/
def insertCmp (cmp : α → α → ℤ) (x : α) : List α → List α
  | [] => [x]
  | y :: ys => if cmp x y < 0 then x :: y :: ys else y :: insertCmp cmp x ys

/-- Sorting per `Array.prototype.sort(comparator)`, modelled as a stable comparator sort
(ECMAScript requires sort stability). -/
def sortCmp (cmp : α → α → ℤ) (l : List α) : List α :=
  l.foldl (fun acc x => insertCmp cmp x acc) []

/-- The whole aggregate/trending merge of the client `App.tsx`:
deduplicate by link (JS `Map` semantics), sort by publish timestamp
descending, keep the first 10. -/
def mergeTrending (getTime : String → ℤ) (arts : List Article) : List Article :=
  ((sortCmp (pubCmp getTime) (dedupByLink arts)).take 10)

/-- The three concrete articles of the spec's aggregate-merge test vector. -/
def exA1 : Article := { link := "a", pubDate := some "2024-01-02" }

/-- Second occurrence of link "a" in the test vector. -/
def exA2 : Article := { link := "a", pubDate := some "2024-01-01" }

/-- The link-"b" article of the test vector. -/
def exB : Article := { link := "b", pubDate := some "2024-01-03" }

/-- Date parsing for the three dates of the test vector (order-preserving,
as `new Date(...).getTime()` is on ISO dates). -/
def exGetTime (s : String) : ℤ :=
  if s = "2024-01-01" then 20240101
  else if s = "2024-01-02" then 20240102
  else if s = "2024-01-03" then 20240103
  else 0

theorem mergeTrending_example_eval :
    mergeTrending exGetTime [exA1, exA2, exB] = [exB, exA2] := by decide

/-- C1 counterexample: on the spec's own test vector the merge does NOT keep
the first occurrence of link "a"; the surviving "a" record is the second
occurrence (pubDate 2024-01-01), so the result is not `[b, a-first]`. -/
theorem C1_counterexample :
    mergeTrending exGetTime [exA1, exA2, exB] ≠ [exB, exA1] ∧ exA1 ≠ exA2 := by
  decide

/-- Links of the accumulator are unchanged when `Map.set` overwrites an
existing key. -/
theorem mapSetByLink_links_of_mem (acc : List Article) (a : Article)
    (h : a.link ∈ acc.map Article.link) :
    (mapSetByLink acc a).map Article.link = acc.map Article.link := by
  unfold mapSetByLink
  rw [if_pos (by simpa using h), List.map_map]
  apply List.map_congr_left
  intro b _
  by_cases hb : b.link = a.link <;> simp [hb]

/-- A fresh key is appended at the end by `Map.set`. -/
theorem mapSetByLink_links_of_not_mem (acc : List Article) (a : Article)
    (h : a.link ∉ acc.map Article.link) :
    (mapSetByLink acc a).map Article.link = acc.map Article.link ++ [a.link] := by
  unfold mapSetByLink
  rw [if_neg (by simpa using h)]
  simp

theorem dedupByLink_go_nodup (arts : List Article) (acc : List Article)
    (hacc : ((acc.map Article.link)).Nodup) :
    ((arts.foldl mapSetByLink acc).map Article.link).Nodup := by
  induction arts generalizing acc with
  | nil => exact hacc
  | cons a rest ih =>
    simp only [List.foldl_cons]
    apply ih
    by_cases h : a.link ∈ acc.map Article.link
    · rw [mapSetByLink_links_of_mem acc a h]; exact hacc
    · rw [mapSetByLink_links_of_not_mem acc a h]
      rw [List.nodup_append]
      exact ⟨hacc, List.nodup_singleton _, by simpa using h⟩

/-- C1 amended: deduplication is by article link with the LAST occurrence's
record winning (placed at the first occurrence's position); the result links
are duplicate-free; on the spec's test vector the merge yields exactly two
entries, newest first, with the SECOND "a" occurrence kept. -/
theorem C1_amended_merge (arts : List Article) :
    ((dedupByLink arts).map Article.link).Nodup ∧
      mergeTrending exGetTime [exA1, exA2, exB] = [exB, exA2] := by
  constructor
  · exact dedupByLink_go_nodup arts [] (by simp)
  · decide

/-! ### C2: streaming reader (client `App.tsx` for `/api/automate`)

The reader loop keeps `buffer`, appends each decoded chunk, splits on
`'\n'`, pops the trailing (possibly incomplete) fragment back into the
buffer, and parses each complete non-blank line independently, skipping
lines that fail to parse.  Chunks are modelled at the character level (the
platform `TextDecoder` reassembles multi-byte sequences). -/

/-- Splitting per `String.prototype.split(sep)` for a single-character separator. -/
def splitOnChar (sep : Char) : List Char → List (List Char)
  | [] => [[]]
  | c :: rest =>
    match splitOnChar sep rest with
    | [] => [[c]]
    | s :: ss => if c = sep then [] :: s :: ss else (c :: s) :: ss

/-- Line splitting `buffer.split(newline)`. -/
def splitNl (l : List Char) : List (List Char) := splitOnChar '\n' l

theorem splitOnChar_ne_nil (sep : Char) (l : List Char) : splitOnChar sep l ≠ [] := by
  cases l with
  | nil => simp [splitOnChar]
  | cons c rest =>
    simp only [splitOnChar]
    cases splitOnChar sep rest with
    | nil => simp
    | cons s ss =>
      by_cases h : c = sep <;> simp [h]

/-- Gluing a segment onto the head of a split (used to describe how
splitting commutes with appending). -/
def consOnto (x : List Char) : List (List Char) → List (List Char)
  | [] => [x]
  | s :: ss => (x ++ s) :: ss

/-- Splitting a string that starts with the separator prepends one empty
segment. -/
theorem splitOnChar_cons_sep (sep : Char) (rest : List Char) :
    splitOnChar sep (sep :: rest) = [] :: splitOnChar sep rest := by
  simp only [splitOnChar]
  rcases hs : splitOnChar sep rest with _ | ⟨s, ss⟩
  · exact absurd hs (splitOnChar_ne_nil sep rest)
  · simp

/-- A non-separator head character is glued onto the first segment. -/
theorem splitOnChar_cons_ne (sep c : Char) (rest : List Char) (h : ¬ c = sep) :
    splitOnChar sep (c :: rest) = consOnto [c] (splitOnChar sep rest) := by
  simp only [splitOnChar]
  rcases hs : splitOnChar sep rest with _ | ⟨s, ss⟩
  · exact absurd hs (splitOnChar_ne_nil sep rest)
  · simp [h, consOnto]

/-- No produced segment contains the separator. -/
theorem splitOnChar_not_mem (sep : Char) (l : List Char) :
    ∀ p ∈ splitOnChar sep l, sep ∉ p := by
  induction l with
  | nil => intro p hp; simp [splitOnChar] at hp; simp [hp]
  | cons c rest ih =>
    intro p hp
    by_cases h : c = sep
    · subst h
      rw [splitOnChar_cons_sep] at hp
      rcases List.mem_cons.mp hp with rfl | hp
      · simp
      · exact ih p hp
    · rw [splitOnChar_cons_ne sep c rest h] at hp
      rcases hs : splitOnChar sep rest with _ | ⟨s, ss⟩
      · exact absurd hs (splitOnChar_ne_nil sep rest)
      · rw [hs] at hp
        simp only [consOnto, List.mem_cons] at hp
        rcases hp with rfl | hp
        · intro hmem
          rcases List.mem_cons.mp hmem with rfl | hmem
          · exact h rfl
          · exact ih s (hs ▸ List.mem_cons_self s ss) hmem
        · exact ih p (hs ▸ List.mem_cons_of_mem s hp)

/-- A separator-free string splits into the single segment it is. -/
theorem splitOnChar_eq_single (sep : Char) (l : List Char) (h : sep ∉ l) :
    splitOnChar sep l = [l] := by
  induction l with
  | nil => rfl
  | cons c rest ih =>
    have hc : ¬ c = sep := fun hcs => h (hcs ▸ List.mem_cons_self c rest)
    have hr : sep ∉ rest := fun hm => h (List.mem_cons_of_mem c hm)
    rw [splitOnChar_cons_ne sep c rest hc, ih hr]
    rfl

theorem splitOnChar_append (sep : Char) (a b : List Char) :
    splitOnChar sep (a ++ b) =
      (splitOnChar sep a).dropLast ++
        consOnto ((splitOnChar sep a).getLastD []) (splitOnChar sep b) := by
  induction a with
  | nil =>
    simp only [List.nil_append, splitOnChar]
    rcases hb : splitOnChar sep b with _ | ⟨t, ts⟩
    · exact absurd hb (splitOnChar_ne_nil sep b)
    · simp [consOnto]
  | cons c a' ih =>
    rcases hb : splitOnChar sep b with _ | ⟨t, ts⟩
    · exact absurd hb (splitOnChar_ne_nil sep b)
    rcases ha : splitOnChar sep a' with _ | ⟨s, ss⟩
    · exact absurd ha (splitOnChar_ne_nil sep a')
    by_cases hc : c = sep
    · subst hc
      rw [List.cons_append, splitOnChar_cons_sep, splitOnChar_cons_sep, ih, ha]
      rcases hss : ss with _ | ⟨u, us⟩
      · simp [consOnto, hb]
      · simp [hb, List.getLastD_eq_getLast?, List.getLast?_cons_cons]
    · rw [List.cons_append, splitOnChar_cons_ne sep c _ hc,
        splitOnChar_cons_ne sep c _ hc, ih, ha]
      rcases hss : ss with _ | ⟨u, us⟩
      · simp [consOnto, hb]
      · simp [consOnto, hb, List.getLastD_eq_getLast?, List.getLast?_cons_cons]

/-- JS `trim()`-relevant whitespace (the characters that can occur here). -/
def isWsChar (c : Char) : Bool := c = ' ' || c = '\t' || c = '\n' || c = '\r'

/-- Trimming per `line.trim()`. -/
def trimChars (l : List Char) : List Char :=
  ((l.dropWhile isWsChar).reverse.dropWhile isWsChar).reverse

/-- Processing of a batch of complete lines: blank lines are skipped
(`if (line.trim() === '') continue`), each remaining line is parsed
independently, and a parse failure skips only that line. -/
def emitLines (parse : List Char → Option U) (ls : List (List Char)) : List U :=
  (ls.filter (fun l => !(trimChars l).isEmpty)).filterMap parse

/-- Reader state: the pending partial line and the updates emitted so far. -/
structure ReaderState (U : Type) where
  buffer : List Char
  updates : List U
deriving DecidableEq

/-- One iteration of the client read loop for one received chunk. -/
def readerStep (parse : List Char → Option U) (st : ReaderState U)
    (chunk : List Char) : ReaderState U :=
  let parts := splitNl (st.buffer ++ chunk)
  { buffer := parts.getLastD [],
    updates := st.updates ++ emitLines parse parts.dropLast }

/-- The whole read loop over a sequence of received chunks. -/
def readChunks (parse : List Char → Option U) (chunks : List (List Char)) :
    ReaderState U :=
  chunks.foldl (readerStep parse) ⟨[], []⟩

theorem emitLines_append (parse : List Char → Option U) (l₁ l₂ : List (List Char)) :
    emitLines parse (l₁ ++ l₂) = emitLines parse l₁ ++ emitLines parse l₂ := by
  simp [emitLines]

theorem getLastD_append_right {α : Type} (l₁ l₂ : List α) (h : l₂ ≠ []) (d : α) :
    (l₁ ++ l₂).getLastD d = l₂.getLastD d := by
  rw [List.getLastD_eq_getLast?, List.getLastD_eq_getLast?, List.getLast?_append,
    List.getLast?_eq_getLast _ h]
  rfl

theorem readChunks_go (parse : List Char → Option U) (chunks : List (List Char)) :
    ∀ st : ReaderState U, '\n' ∉ st.buffer →
      chunks.foldl (readerStep parse) st =
        ⟨(splitNl (st.buffer ++ chunks.flatten)).getLastD [],
          st.updates ++ emitLines parse (splitNl (st.buffer ++ chunks.flatten)).dropLast⟩ := by
  induction chunks with
  | nil =>
    intro st hb
    simp only [List.foldl_nil, List.flatten_nil, List.append_nil]
    rw [show splitNl st.buffer = [st.buffer] from splitOnChar_eq_single '\n' st.buffer hb]
    simp [emitLines]
  | cons c cs ih =>
    intro st hb
    simp only [List.foldl_cons, List.flatten_cons]
    set parts := splitNl (st.buffer ++ c) with hparts
    have hne : parts ≠ [] := splitOnChar_ne_nil '\n' _
    have hBmem : parts.getLastD [] ∈ parts := by
      rcases hp : parts with _ | ⟨s, ss⟩
      · exact absurd hp hne
      · rw [List.getLastD_eq_getLast?]
        have := List.getLast?_eq_getLast (s :: ss) (by simp)
        rw [this]
        simp only [Option.getD_some]
        exact List.getLast_mem _
    have hBnl : '\n' ∉ parts.getLastD [] :=
      splitOnChar_not_mem '\n' (st.buffer ++ c) _ hBmem
    have hstep : readerStep parse st c =
        ⟨parts.getLastD [], st.updates ++ emitLines parse parts.dropLast⟩ := rfl
    rw [hstep, ih _ hBnl]
    -- rewrite the total split through the chunk boundary
    have hsplit : splitNl (st.buffer ++ (c ++ cs.flatten)) =
        parts.dropLast ++ splitNl (parts.getLastD [] ++ cs.flatten) := by
      have h₁ : splitNl ((st.buffer ++ c) ++ cs.flatten) =
          parts.dropLast ++ consOnto (parts.getLastD []) (splitNl cs.flatten) :=
        splitOnChar_append '\n' (st.buffer ++ c) cs.flatten
      have h₂ : splitNl (parts.getLastD [] ++ cs.flatten) =
          consOnto (parts.getLastD []) (splitNl cs.flatten) := by
        have := splitOnChar_append '\n' (parts.getLastD []) cs.flatten
        rw [show splitOnChar '\n' (parts.getLastD []) = [parts.getLastD []] from
          splitOnChar_eq_single '\n' _ hBnl] at this
        simpa [splitNl] using this
      rw [← List.append_assoc, h₁, h₂]
    rw [hsplit]
    have hSne : splitNl (parts.getLastD [] ++ cs.flatten) ≠ [] :=
      splitOnChar_ne_nil '\n' _
    simp only [ReaderState.mk.injEq]
    constructor
    · -- buffers agree
      exact (getLastD_append_right parts.dropLast _ hSne []).symm
    · -- update streams agree
      rw [List.dropLast_append_of_ne_nil _ hSne, emitLines_append]
      simp [List.append_assoc]

/-- Opening brace character. -/
def braceL : Char := Char.ofNat 123

/-- Closing brace character. -/
def braceR : Char := Char.ofNat 125

/-- Double-quote character. -/
def dq : Char := Char.ofNat 34

/-- Parsing per `JSON.parse` (a platform builtin) restricted to the single-field
id-object lines of the streaming-reader test vector: a line of the exact
shape `open-brace "id" : "<value>" close-brace` parses to its value, and
anything else is a parse failure. -/
def parseIdObject (l : List Char) : Option (List Char) :=
  if 9 ≤ l.length ∧ l.take 7 = [braceL, dq, 'i', 'd', dq, ':', dq] ∧
      l.drop (l.length - 2) = [dq, braceR] ∧
      dq ∉ (l.drop 7).take (l.length - 9) then
    some ((l.drop 7).take (l.length - 9))
  else
    none

/-- First received chunk of the test vector: a complete id-"a" line plus the
first three characters of the next line. -/
def chunkOne : List Char :=
  [braceL, dq, 'i', 'd', dq, ':', dq, 'a', dq, braceR, '\n', braceL, dq, 'i']

/-- Second received chunk: the rest of the id-"b" line and its newline. -/
def chunkTwo : List Char :=
  ['d', dq, ':', dq, 'b', dq, braceR, '\n']

/-- C2: the streaming reader buffers partial data, splits on newlines,
keeps the trailing fragment, and parses each complete non-blank line
independently (a failing line is skipped, later lines still parse — the
emitted updates are the `filterMap` of the parser over ALL complete
non-blank lines of the concatenated stream, independent of chunking);
feeding the two test chunks emits exactly the objects with id "a" then "b". -/
theorem C2_streaming_reader {U : Type} (parse : List Char → Option U)
    (chunks : List (List Char)) :
    (readChunks parse chunks).buffer = (splitNl chunks.flatten).getLastD [] ∧
    (readChunks parse chunks).updates =
      emitLines parse (splitNl chunks.flatten).dropLast ∧
    (readChunks parseIdObject [chunkOne, chunkTwo]).updates = [['a'], ['b']] := by
  have h := readChunks_go parse chunks ⟨[], []⟩ (by simp)
  refine ⟨?_, ?_, ?_⟩
  · unfold readChunks; rw [h]; simp
  · unfold readChunks; rw [h]; simp
  · decide

/-! ### C3: completed-count increment guard (client `App.tsx` stream apply)

One parsed stream update is applied with `setTasks`: every task whose id
matches is replaced by the update, `alreadyDone` records whether the
matching task was already DONE, and the completed count is incremented only
for a genuine transition into DONE. -/

/-- Apply one stream update to the client task list and completed count. -/
def applyStreamUpdate (tasks : List BatchTask) (count : ℕ) (update : BatchTask) :
    List BatchTask × ℕ :=
  let alreadyDone :=
    tasks.any (fun t => decide (t.id = update.id ∧ t.status = TaskStatus.DONE))
  (tasks.map (fun t => if t.id = update.id then update else t),
    if update.status = TaskStatus.DONE ∧ alreadyDone = false then count + 1
    else count)

/-- C3: an applied update whose new status is DONE increments the completed
count exactly once when the previously recorded status of that task was not
DONE, and leaves the count unchanged when it was already DONE. -/
theorem C3_done_count_guard (tasks : List BatchTask) (count : ℕ)
    (update t₀ : BatchTask) (hmem : t₀ ∈ tasks) (hid : t₀.id = update.id)
    (hnodup : (tasks.map BatchTask.id).Nodup)
    (hdone : update.status = TaskStatus.DONE) :
    (t₀.status ≠ TaskStatus.DONE →
        (applyStreamUpdate tasks count update).2 = count + 1) ∧
      (t₀.status = TaskStatus.DONE →
        (applyStreamUpdate tasks count update).2 = count) := by
  have hiff : (tasks.any
      (fun t => decide (t.id = update.id ∧ t.status = TaskStatus.DONE)) = true)
      ↔ t₀.status = TaskStatus.DONE := by
    constructor
    · intro h
      rcases List.any_eq_true.mp h with ⟨t, htmem, ht⟩
      rcases of_decide_eq_true ht with ⟨htid, htdone⟩
      have : t = t₀ :=
        List.inj_on_of_nodup_map hnodup htmem hmem (htid.trans hid.symm)
      exact this ▸ htdone
    · intro h
      exact List.any_eq_true.mpr ⟨t₀, hmem, decide_eq_true ⟨hid, h⟩⟩
  constructor
  · intro hnot
    have : tasks.any
        (fun t => decide (t.id = update.id ∧ t.status = TaskStatus.DONE)) = false :=
      Bool.eq_false_iff.mpr (fun h => hnot (hiff.mp h))
    simp only [applyStreamUpdate]
    rw [if_pos ⟨hdone, this⟩]
  · intro hyes
    have : tasks.any
        (fun t => decide (t.id = update.id ∧ t.status = TaskStatus.DONE)) = true :=
      hiff.mpr hyes
    simp only [applyStreamUpdate]
    rw [if_neg]
    intro hcontra
    rw [this] at hcontra
    exact absurd hcontra.2 (by simp)

/-- Concrete closed instance of the C3 guard: a two-task list where applying
a DONE update to a non-DONE task increments, and to an already-DONE task
does not. -/
theorem C3_done_count_guard_witness :
    ((applyStreamUpdate
        [⟨"top", "Trending", TaskStatus.UPLOADING, none, none⟩,
         ⟨"sports", "Sports", TaskStatus.DONE, none, none⟩] 3
        ⟨"top", "Trending", TaskStatus.DONE, none, none⟩).2 = 4) ∧
    ((applyStreamUpdate
        [⟨"top", "Trending", TaskStatus.UPLOADING, none, none⟩,
         ⟨"sports", "Sports", TaskStatus.DONE, none, none⟩] 3
        ⟨"sports", "Sports", TaskStatus.DONE, none, none⟩).2 = 3) := by
  constructor
  · exact (C3_done_count_guard
      [⟨"top", "Trending", TaskStatus.UPLOADING, none, none⟩,
       ⟨"sports", "Sports", TaskStatus.DONE, none, none⟩] 3
      ⟨"top", "Trending", TaskStatus.DONE, none, none⟩
      ⟨"top", "Trending", TaskStatus.UPLOADING, none, none⟩
      (by decide) (by decide) (by decide) (by decide)).1 (by decide)
  · exact (C3_done_count_guard
      [⟨"top", "Trending", TaskStatus.UPLOADING, none, none⟩,
       ⟨"sports", "Sports", TaskStatus.DONE, none, none⟩] 3
      ⟨"sports", "Sports", TaskStatus.DONE, none, none⟩
      ⟨"sports", "Sports", TaskStatus.DONE, none, none⟩
      (by decide) (by decide) (by decide) (by decide)).2 (by decide)

/-! ### C10: the server orchestrator's `updateTask` primitive

`updateTask` looks up the FIRST task with the given id (`findIndex`),
merges the partial update over it (object spread), writes it back in place,
and pushes the just-written snapshot to the stream; a missing id is a
silent no-op. -/

/-- A `Partial<BatchTask>` update: fields present override, fields absent
are kept. -/
structure TaskUpdates where
  status : Option TaskStatus := none
  error : Option String := none
  result : Option TaskResult := none
deriving DecidableEq

/-- Object spread `{ ...task, ...updates }`. -/
def mergeTask (t : BatchTask) (u : TaskUpdates) : BatchTask :=
  { id := t.id
    categoryName := t.categoryName
    status := u.status.getD t.status
    error := match u.error with | some e => some e | none => t.error
    result := match u.result with | some r => some r | none => t.result }

/-- The server `updateTask`: returns the new task list and the list of
stream records pushed (empty or a single full snapshot).  `findIdx` returns
the list length when no task matches, mirroring `findIndex`'s `-1`
sentinel and the `taskIndex !== -1` guard. -/
def updateTask (tasks : List BatchTask) (taskId : String) (u : TaskUpdates) :
    List BatchTask × List BatchTask :=
  let j := tasks.findIdx (fun t => t.id = taskId)
  if h : j < tasks.length then
    let t' := mergeTask (tasks.get ⟨j, h⟩) u
    (tasks.set j t', [t'])
  else
    (tasks, [])

/-- C10: with an absent id `updateTask` changes nothing and emits nothing;
with a present id it rewrites exactly the first task carrying that id to
the merged record, leaves every other position untouched, and emits exactly
that one just-written snapshot. -/
theorem C10_updateTask_frame (tasks : List BatchTask) (taskId : String)
    (u : TaskUpdates) :
    ((∀ t ∈ tasks, t.id ≠ taskId) → updateTask tasks taskId u = (tasks, [])) ∧
      (∀ j (hj : j < tasks.length), (tasks.get ⟨j, hj⟩).id = taskId →
        (∀ k (hk : k < tasks.length), k < j → (tasks.get ⟨k, hk⟩).id ≠ taskId) →
        (updateTask tasks taskId u).1 =
            tasks.set j (mergeTask (tasks.get ⟨j, hj⟩) u) ∧
          (updateTask tasks taskId u).2 = [mergeTask (tasks.get ⟨j, hj⟩) u] ∧
          ∀ k, k ≠ j → (updateTask tasks taskId u).1[k]? = tasks[k]?) := by
  constructor
  · intro habs
    have hlen : tasks.findIdx (fun t => decide (t.id = taskId)) = tasks.length := by
      apply List.findIdx_eq_length_of_false
      intro t ht
      simpa using habs t ht
    simp only [updateTask, hlen]
    rw [dif_neg (by exact Nat.lt_irrefl _)]
  · intro j hj hjid hfirst
    have hfi : tasks.findIdx (fun t => decide (t.id = taskId)) = j := by
      rw [List.findIdx_eq hj]
      refine ⟨by simpa using hjid, ?_⟩
      intro k hk
      simpa using hfirst k (Nat.lt_trans hk hj) hk
    simp only [updateTask, hfi]
    rw [dif_pos hj]
    refine ⟨rfl, rfl, ?_⟩
    intro k hkj
    exact List.getElem?_set_ne (fun h => hkj h.symm)

/-- Concrete closed instance of C10: a present id is rewritten in place and
one snapshot is emitted; sibling positions are untouched. -/
theorem C10_updateTask_frame_witness :
    (updateTask [⟨"a", "A", TaskStatus.PENDING, none, none⟩] "zzz"
        ⟨some TaskStatus.GATHERING, none, none⟩ =
      ([⟨"a", "A", TaskStatus.PENDING, none, none⟩], [])) ∧
    ((updateTask [⟨"a", "A", TaskStatus.PENDING, none, none⟩,
          ⟨"b", "B", TaskStatus.PENDING, none, none⟩] "b"
        ⟨some TaskStatus.ERROR, some "boom", none⟩).1 =
      [⟨"a", "A", TaskStatus.PENDING, none, none⟩,
       ⟨"b", "B", TaskStatus.ERROR, some "boom", none⟩]) := by
  constructor
  · exact (C10_updateTask_frame [⟨"a", "A", TaskStatus.PENDING, none, none⟩]
      "zzz" ⟨some TaskStatus.GATHERING, none, none⟩).1 (by decide)
  · have h := (C10_updateTask_frame
      [⟨"a", "A", TaskStatus.PENDING, none, none⟩,
       ⟨"b", "B", TaskStatus.PENDING, none, none⟩] "b"
      ⟨some TaskStatus.ERROR, some "boom", none⟩).2 1 (by decide) (by decide)
      (by decide)
    rw [h.1]
    decide

/-! ### Server orchestrator (`api/automate` handler): phases 1 and 2

The handler keeps an in-place task list, a stream of pushed snapshots, the
Used-Link Set and the collected list, and drives the two sequential phases.
External collaborators (news fetch, analysis, image generation, composition
inputs, upload, webhook) are abstracted as outcome functions. -/

/-- A configured news category (`{name, apiValue}`). -/
structure Category where
  name : String
  apiValue : String
deriving DecidableEq

/-- Outcome of `findAndAnalyzeBestArticleFromList`: a thrown error, the
`null` no-qualifying-article signal, or an analysis with the chosen
article. -/
inductive AnalyzeOutcome where
  | failed (msg : String)
  | irrelevant
  | ok (analysis : NewsAnalysis) (article : Article)
deriving DecidableEq

/-- The orchestrator's mutable state. -/
structure OrchState where
  tasks : List BatchTask
  stream : List BatchTask
  used : List String
  collected : List CollectedData
deriving DecidableEq

/-- The `updateTask` helper lifted to the orchestrator state: write the merged task
back and push the snapshot. -/
def applyUpdate (st : OrchState) (taskId : String) (u : TaskUpdates) : OrchState :=
  let r := updateTask st.tasks taskId u
  { st with tasks := r.1, stream := st.stream ++ r.2 }

/-- Insertion `usedArticleLinks.add(link)` (a JS `Set` never duplicates). -/
def insertLink (used : List String) (l : String) : List String :=
  if used.contains l then used else used ++ [l]

/-- Error message for an empty unused candidate set. -/
def noUnusedMsg (c : Category) : String :=
  "No new, unused articles found for " ++ c.name ++ "."

/-- Error message when the analysis collaborator returns `null`. -/
def irrelevantMsg (c : Category) : String :=
  "Could not find a relevant, unused Bangladesh-specific article for " ++ c.name ++ "."

/-- One phase-1 iteration for one category: mark GATHERING, fetch, filter
out already-used links, run the analysis, and either record the choice and
mark GATHERED or record the failure message and mark ERROR. -/
def gatherStep (fetch : String → Except String (List Article))
    (analyze : List Article → AnalyzeOutcome)
    (st : OrchState) (c : Category) : OrchState :=
  let st1 := applyUpdate st c.apiValue ⟨some TaskStatus.GATHERING, none, none⟩
  match fetch c.apiValue with
  | .error m => applyUpdate st1 c.apiValue ⟨some TaskStatus.ERROR, some m, none⟩
  | .ok arts =>
    let unused := arts.filter (fun a => !(st1.used.contains a.link))
    if unused.length = 0 then
      applyUpdate st1 c.apiValue ⟨some TaskStatus.ERROR, some (noUnusedMsg c), none⟩
    else
      match analyze unused with
      | .failed m =>
        applyUpdate st1 c.apiValue ⟨some TaskStatus.ERROR, some m, none⟩
      | .irrelevant =>
        applyUpdate st1 c.apiValue
          ⟨some TaskStatus.ERROR, some (irrelevantMsg c), none⟩
      | .ok an art =>
        let st2 := { st1 with used := insertLink st1.used art.link,
                              collected := st1.collected ++ [⟨c.apiValue, an, art⟩] }
        applyUpdate st2 c.apiValue ⟨some TaskStatus.GATHERED, none, none⟩

/-- Phase 1 over the whole category list. -/
def phase1 (fetch : String → Except String (List Article))
    (analyze : List Article → AnalyzeOutcome)
    (cats : List Category) (st : OrchState) : OrchState :=
  cats.foldl (gatherStep fetch analyze) st

/-- The initial task list (one PENDING task per category). -/
def initTasks (cats : List Category) : List BatchTask :=
  cats.map (fun c => ⟨c.apiValue, c.name, TaskStatus.PENDING, none, none⟩)

/-- The initial orchestrator state; every initial snapshot is pushed. -/
def initState (cats : List Category) : OrchState :=
  ⟨initTasks cats, initTasks cats, [], []⟩

/-- The delivery payload built for one completed task. -/
def mkPayload (an : NewsAnalysis) (imageUrl : String) (art : Article) :
    WebhookPayload :=
  ⟨an.headline, imageUrl, an.caption, art.link, "Queue"⟩

/-- The `image_url` actually usable by the server's phase 2: the inner
`if (!article.image_url) throw` treats both a missing and an empty string
reference as unusable. -/
def primaryImage (art : Article) : Option String :=
  match art.image_url with
  | some u => if u = "" then none else some u
  | none => none

/-- The tail of one phase-2 iteration once a composable image source is in
hand: COMPOSING, UPLOADING, SENDING_WEBHOOK, DONE, any thrown failure
ending in ERROR. -/
def processRest (compose : String → Except String String)
    (upload : String → Except String String)
    (webhook : WebhookPayload → Except String Unit)
    (st : OrchState) (d : CollectedData) (src : String) : OrchState :=
  let st3 := applyUpdate st d.taskId ⟨some TaskStatus.COMPOSING, none, none⟩
  match compose src with
  | .error m => applyUpdate st3 d.taskId ⟨some TaskStatus.ERROR, some m, none⟩
  | .ok img =>
    let st4 := applyUpdate st3 d.taskId ⟨some TaskStatus.UPLOADING, none, none⟩
    match upload img with
    | .error m => applyUpdate st4 d.taskId ⟨some TaskStatus.ERROR, some m, none⟩
    | .ok url =>
      let st5 := applyUpdate st4 d.taskId
        ⟨some TaskStatus.SENDING_WEBHOOK, none, none⟩
      match webhook (mkPayload d.analysis url d.article) with
      | .error m => applyUpdate st5 d.taskId ⟨some TaskStatus.ERROR, some m, none⟩
      | .ok _ =>
        applyUpdate st5 d.taskId
          ⟨some TaskStatus.DONE, none,
            some ⟨d.analysis.headline, url, d.analysis.caption,
              d.article.link, d.analysis.sourceName⟩⟩

/-- One phase-2 iteration for one collected item (server variant): mark
PROCESSING, use the article's `image_url` if truthy, otherwise mark
GENERATING_IMAGE and generate a substitute (whose failure is the thrown
failure of the whole step); then hand over to `processRest`. -/
def processStep (generate : String → Except String String)
    (compose : String → Except String String)
    (upload : String → Except String String)
    (webhook : WebhookPayload → Except String Unit)
    (st : OrchState) (d : CollectedData) : OrchState :=
  let st1 := applyUpdate st d.taskId ⟨some TaskStatus.PROCESSING, none, none⟩
  match primaryImage d.article with
  | some u => processRest compose upload webhook st1 d u
  | none =>
    let st2 := applyUpdate st1 d.taskId ⟨some TaskStatus.GENERATING_IMAGE, none, none⟩
    match generate d.analysis.imagePrompt with
    | .error m => applyUpdate st2 d.taskId ⟨some TaskStatus.ERROR, some m, none⟩
    | .ok src => processRest compose upload webhook st2 d src

/-- Phase 2 over the collected list. -/
def phase2 (generate : String → Except String String)
    (compose : String → Except String String)
    (upload : String → Except String String)
    (webhook : WebhookPayload → Except String Unit)
    (collected : List CollectedData) (st : OrchState) : OrchState :=
  collected.foldl (processStep generate compose upload webhook) st

/-! #### Helper lemmas about `updateTask` and the orchestrator state -/

theorem applyUpdate_used (st : OrchState) (taskId : String) (u : TaskUpdates) :
    (applyUpdate st taskId u).used = st.used := rfl

theorem applyUpdate_collected (st : OrchState) (taskId : String) (u : TaskUpdates) :
    (applyUpdate st taskId u).collected = st.collected := rfl

theorem insertLink_sub (used : List String) (l : String) :
    used ⊆ insertLink used l := by
  unfold insertLink
  split
  · exact fun x hx => hx
  · exact fun x hx => List.mem_append_left _ hx

theorem mem_insertLink (used : List String) (l : String) :
    l ∈ insertLink used l := by
  unfold insertLink
  split
  · rename_i h
    simpa using h
  · simp

/-- Every branch of a phase-1 step only grows the Used-Link Set. -/
theorem gatherStep_used_sub (fetch : String → Except String (List Article))
    (analyze : List Article → AnalyzeOutcome) (st : OrchState) (c : Category) :
    st.used ⊆ (gatherStep fetch analyze st c).used := by
  unfold gatherStep
  cases fetch c.apiValue with
  | error m => intro x hx; exact hx
  | ok arts =>
    simp only
    split
    · intro x hx; exact hx
    · split
      · intro x hx; exact hx
      · intro x hx; exact hx
      · intro x hx
        exact insertLink_sub _ _ hx

theorem phase1_used_sub (fetch : String → Except String (List Article))
    (analyze : List Article → AnalyzeOutcome) (cats : List Category) :
    ∀ st : OrchState, st.used ⊆ (phase1 fetch analyze cats st).used := by
  induction cats with
  | nil => intro st; exact fun x hx => hx
  | cons c cs ih =>
    intro st
    intro x hx
    exact ih (gatherStep fetch analyze st c)
      (gatherStep_used_sub fetch analyze st c hx)

/-- The phase-1 collection invariant: every collected link is already in
the Used-Link Set, and the collected links are pairwise distinct. -/
def collectedInv (st : OrchState) : Prop :=
  (∀ d ∈ st.collected, d.article.link ∈ st.used) ∧
    (st.collected.map (fun d => d.article.link)).Nodup

theorem gatherStep_collectedInv (fetch : String → Except String (List Article))
    (analyze : List Article → AnalyzeOutcome) (st : OrchState) (c : Category)
    (hsel : ∀ arts an art, analyze arts = AnalyzeOutcome.ok an art → art ∈ arts)
    (hinv : collectedInv st) :
    collectedInv (gatherStep fetch analyze st c) := by
  unfold gatherStep
  cases fetch c.apiValue with
  | error m => exact hinv
  | ok arts =>
    simp only
    split
    · exact hinv
    · rename_i hne
      split
      · exact hinv
      · exact hinv
      · rename_i an art hok
        have hartmem : art ∈ arts.filter
            (fun a => !((applyUpdate st c.apiValue
              ⟨some TaskStatus.GATHERING, none, none⟩).used.contains a.link)) :=
          hsel _ an art hok
        have hnotused : art.link ∉ st.used := by
          have := (List.mem_filter.mp hartmem).2
          rw [applyUpdate_used] at this
          simpa using this
        constructor
        · intro d hd
          simp only [applyUpdate_collected, applyUpdate_used] at hd ⊢
          rcases List.mem_append.mp hd with hd | hd
          · exact insertLink_sub _ _ (hinv.1 d hd)
          · rcases List.mem_singleton.mp hd with rfl
            exact mem_insertLink _ _
        · simp only [applyUpdate_collected, applyUpdate_used, List.map_append]
          rw [List.nodup_append]
          refine ⟨hinv.2, List.nodup_singleton _, ?_⟩
          intro x hx
          simp only [List.map_cons, List.map_nil, List.mem_singleton]
          intro hxa
          rcases List.mem_map.mp hx with ⟨d, hd, rfl⟩
          exact hnotused (hxa ▸ hinv.1 d hd)

theorem phase1_collectedInv (fetch : String → Except String (List Article))
    (analyze : List Article → AnalyzeOutcome) (cats : List Category)
    (hsel : ∀ arts an art, analyze arts = AnalyzeOutcome.ok an art → art ∈ arts) :
    ∀ st : OrchState, collectedInv st →
      collectedInv (phase1 fetch analyze cats st) := by
  induction cats with
  | nil => intro st h; exact h
  | cons c cs ih =>
    intro st h
    exact ih _ (gatherStep_collectedInv fetch analyze st c hsel h)

/-- C7: within one run the Used-Link Set grows monotonically through phase
1, and — provided the analysis collaborator only ever selects an article
from the candidate list it receives, as `findAndAnalyzeBestArticleFromList`
enforces — no two collected choices share a link: every later category's
candidates were filtered against the set, so a link claimed by an earlier
category is never selected again. -/
theorem C7_used_link_isolation (fetch : String → Except String (List Article))
    (analyze : List Article → AnalyzeOutcome) (cats : List Category)
    (hsel : ∀ arts an art, analyze arts = AnalyzeOutcome.ok an art → art ∈ arts) :
    (∀ st : OrchState, st.used ⊆ (phase1 fetch analyze cats st).used) ∧
      (((phase1 fetch analyze cats (initState cats)).collected.map
          (fun d => d.article.link)).Nodup) := by
  refine ⟨phase1_used_sub fetch analyze cats, ?_⟩
  have h := phase1_collectedInv fetch analyze cats hsel (initState cats)
    ⟨by intro d hd; simp [initState] at hd, by simp [initState]⟩
  exact h.2

/-- A concrete analysis collaborator that picks the first candidate. -/
def analyzeFirst (arts : List Article) : AnalyzeOutcome :=
  match arts with
  | [] => AnalyzeOutcome.irrelevant
  | a :: _ =>
    AnalyzeOutcome.ok ⟨"headline", ["headline"], "caption", "prompt", "src"⟩ a

theorem analyzeFirst_sel (arts : List Article) (an : NewsAnalysis) (art : Article)
    (h : analyzeFirst arts = AnalyzeOutcome.ok an art) : art ∈ arts := by
  cases arts with
  | nil => simp [analyzeFirst] at h
  | cons a rest =>
    simp only [analyzeFirst, AnalyzeOutcome.ok.injEq] at h
    exact h.2 ▸ List.mem_cons_self a rest

/-- Closed instance of C7 on a concrete two-category run where both
categories fetch the same article list. -/
theorem C7_used_link_isolation_witness :
    (∀ st : OrchState, st.used ⊆
      (phase1 (fun _ => Except.ok [⟨"l1", none, none⟩, ⟨"l2", none, none⟩])
        analyzeFirst [⟨"Top", "top"⟩, ⟨"Sports", "sports"⟩] st).used) ∧
    (((phase1 (fun _ => Except.ok [⟨"l1", none, none⟩, ⟨"l2", none, none⟩])
        analyzeFirst [⟨"Top", "top"⟩, ⟨"Sports", "sports"⟩]
        (initState [⟨"Top", "top"⟩, ⟨"Sports", "sports"⟩])).collected.map
          (fun d => d.article.link)).Nodup) :=
  C7_used_link_isolation
    (fun _ => Except.ok [⟨"l1", none, none⟩, ⟨"l2", none, none⟩])
    analyzeFirst [⟨"Top", "top"⟩, ⟨"Sports", "sports"⟩] analyzeFirst_sel

/-! #### Identity and frame lemmas for `updateTask`, used by the phase
invariants -/

theorem mergeTask_id (t : BatchTask) (u : TaskUpdates) :
    (mergeTask t u).id = t.id := rfl

theorem updateTask_ids (ts : List BatchTask) (taskId : String) (u : TaskUpdates) :
    ((updateTask ts taskId u).1).map BatchTask.id = ts.map BatchTask.id := by
  simp only [updateTask]
  by_cases h : ts.findIdx (fun t => decide (t.id = taskId)) < ts.length
  · rw [dif_pos h]
    apply List.ext_getElem?
    intro n
    simp only [List.getElem?_map]
    by_cases hn : n = ts.findIdx (fun t => decide (t.id = taskId))
    · subst hn
      rw [List.getElem?_set_self h, List.getElem?_eq_getElem h]
      simp [mergeTask]
    · rw [List.getElem?_set_ne (fun hh => hn hh.symm)]
  · rw [dif_neg h]

theorem applyUpdate_ids (st : OrchState) (taskId : String) (u : TaskUpdates) :
    (applyUpdate st taskId u).tasks.map BatchTask.id = st.tasks.map BatchTask.id :=
  updateTask_ids st.tasks taskId u

theorem mem_updateTask_of_ne (ts : List BatchTask) (taskId : String)
    (u : TaskUpdates) (t : BatchTask) (ht : t ∈ ts) (hne : t.id ≠ taskId) :
    t ∈ (updateTask ts taskId u).1 := by
  simp only [updateTask]
  by_cases h : ts.findIdx (fun t => decide (t.id = taskId)) < ts.length
  · rw [dif_pos h]
    have hjid : (ts.get ⟨ts.findIdx (fun t => decide (t.id = taskId)), h⟩).id
        = taskId := by
      have := @List.findIdx_getElem _ (fun t => decide (t.id = taskId)) ts h
      simpa [List.get_eq_getElem] using this
    rcases List.mem_iff_getElem.mp ht with ⟨k, hk, hkt⟩
    have hkj : k ≠ ts.findIdx (fun t => decide (t.id = taskId)) := by
      intro hkj
      subst hkj
      exact hne (hkt ▸ hjid)
    apply List.mem_iff_getElem.mpr
    refine ⟨k, by simpa using hk, ?_⟩
    rw [List.getElem_set_ne (fun hh => hkj hh.symm)]
    exact hkt
  · rw [dif_neg h]
    exact ht

theorem mem_applyUpdate_of_ne (st : OrchState) (taskId : String)
    (u : TaskUpdates) (t : BatchTask) (ht : t ∈ st.tasks) (hne : t.id ≠ taskId) :
    t ∈ (applyUpdate st taskId u).tasks :=
  mem_updateTask_of_ne st.tasks taskId u t ht hne

theorem updateTask_mem_merged (ts : List BatchTask) (taskId : String)
    (u : TaskUpdates) (hp : taskId ∈ ts.map BatchTask.id) :
    ∃ told, told ∈ ts ∧ told.id = taskId ∧
      mergeTask told u ∈ (updateTask ts taskId u).1 := by
  rcases List.mem_map.mp hp with ⟨told0, hmem0, hid0⟩
  have hex : ∃ x ∈ ts, (fun t => decide (t.id = taskId)) x = true :=
    ⟨told0, hmem0, by simp [hid0]⟩
  have hlt : ts.findIdx (fun t => decide (t.id = taskId)) < ts.length :=
    List.findIdx_lt_length_of_exists hex
  refine ⟨ts.get ⟨_, hlt⟩, List.get_mem _ _ _, ?_, ?_⟩
  · have := @List.findIdx_getElem _ (fun t => decide (t.id = taskId)) ts hlt
    simpa using this
  · simp only [updateTask]
    rw [dif_pos hlt]
    apply List.mem_iff_getElem.mpr
    refine ⟨ts.findIdx (fun t => decide (t.id = taskId)), by simpa using hlt, ?_⟩
    rw [List.getElem_set_self]

/-- An `updateTask` with an explicit status (and possibly an error message)
really writes that status and message onto the task carrying the id. -/
theorem applyUpdate_writes (st : OrchState) (taskId : String) (s : TaskStatus)
    (e : Option String) (r : Option TaskResult)
    (hp : taskId ∈ st.tasks.map BatchTask.id) :
    ∃ t ∈ (applyUpdate st taskId ⟨some s, e, r⟩).tasks, t.id = taskId ∧
      t.status = s ∧ (∀ m, e = some m → t.error = some m) := by
  rcases updateTask_mem_merged st.tasks taskId ⟨some s, e, r⟩ hp with
    ⟨told, _, hid, hmerged⟩
  refine ⟨mergeTask told ⟨some s, e, r⟩, hmerged, hid, by simp [mergeTask], ?_⟩
  intro m hm
  subst hm
  simp [mergeTask]

/-! #### Per-category terminality and frame lemmas (C9) -/

theorem gatherStep_ids (fetch : String → Except String (List Article))
    (analyze : List Article → AnalyzeOutcome) (st : OrchState) (c : Category) :
    (gatherStep fetch analyze st c).tasks.map BatchTask.id =
      st.tasks.map BatchTask.id := by
  simp only [gatherStep]
  cases fetch c.apiValue with
  | error m => rw [applyUpdate_ids, applyUpdate_ids]
  | ok arts =>
    simp only
    split
    · rw [applyUpdate_ids, applyUpdate_ids]
    · split
      · rw [applyUpdate_ids, applyUpdate_ids]
      · rw [applyUpdate_ids, applyUpdate_ids]
      · rw [applyUpdate_ids]
        exact applyUpdate_ids _ _ _

theorem gatherStep_frame (fetch : String → Except String (List Article))
    (analyze : List Article → AnalyzeOutcome) (st : OrchState) (c : Category)
    (t : BatchTask) (ht : t ∈ st.tasks) (hne : t.id ≠ c.apiValue) :
    t ∈ (gatherStep fetch analyze st c).tasks := by
  simp only [gatherStep]
  cases fetch c.apiValue with
  | error m => exact mem_applyUpdate_of_ne _ _ _ t (mem_applyUpdate_of_ne _ _ _ t ht hne) hne
  | ok arts =>
    simp only
    split
    · exact mem_applyUpdate_of_ne _ _ _ t (mem_applyUpdate_of_ne _ _ _ t ht hne) hne
    · split
      · exact mem_applyUpdate_of_ne _ _ _ t (mem_applyUpdate_of_ne _ _ _ t ht hne) hne
      · exact mem_applyUpdate_of_ne _ _ _ t (mem_applyUpdate_of_ne _ _ _ t ht hne) hne
      · exact mem_applyUpdate_of_ne _ _ _ t (mem_applyUpdate_of_ne _ _ _ t ht hne) hne

/-- Whatever happens inside one phase-1 iteration, its category's task ends
the iteration either GATHERED or ERROR with a recorded message. -/
theorem gatherStep_terminal (fetch : String → Except String (List Article))
    (analyze : List Article → AnalyzeOutcome) (st : OrchState) (c : Category)
    (hp : c.apiValue ∈ st.tasks.map BatchTask.id) :
    ∃ t ∈ (gatherStep fetch analyze st c).tasks, t.id = c.apiValue ∧
      (t.status = TaskStatus.GATHERED ∨
        (t.status = TaskStatus.ERROR ∧ t.error.isSome)) := by
  have hp1 : c.apiValue ∈ (applyUpdate st c.apiValue
      ⟨some TaskStatus.GATHERING, none, none⟩).tasks.map BatchTask.id := by
    rw [applyUpdate_ids]; exact hp
  simp only [gatherStep]
  cases fetch c.apiValue with
  | error m =>
    rcases applyUpdate_writes _ _ TaskStatus.ERROR (some m) none hp1 with
      ⟨t, hmem, hid, hst, herr⟩
    exact ⟨t, hmem, hid, Or.inr ⟨hst, by rw [herr m rfl]; rfl⟩⟩
  | ok arts =>
    simp only
    split
    · rcases applyUpdate_writes _ _ TaskStatus.ERROR (some (noUnusedMsg c)) none hp1 with
        ⟨t, hmem, hid, hst, herr⟩
      exact ⟨t, hmem, hid, Or.inr ⟨hst, by rw [herr _ rfl]; rfl⟩⟩
    · split
      · rename_i m _
        rcases applyUpdate_writes _ _ TaskStatus.ERROR (some m) none hp1 with
          ⟨t, hmem, hid, hst, herr⟩
        exact ⟨t, hmem, hid, Or.inr ⟨hst, by rw [herr m rfl]; rfl⟩⟩
      · rcases applyUpdate_writes _ _ TaskStatus.ERROR (some (irrelevantMsg c)) none hp1 with
          ⟨t, hmem, hid, hst, herr⟩
        exact ⟨t, hmem, hid, Or.inr ⟨hst, by rw [herr _ rfl]; rfl⟩⟩
      · rcases applyUpdate_writes _ _ TaskStatus.GATHERED none none hp1 with
          ⟨t, hmem, hid, hst, _⟩
        exact ⟨t, hmem, hid, Or.inl hst⟩

/-- A `null` analysis result is recorded as a normal per-category ERROR
with the dedicated message, not an abort. -/
theorem gatherStep_null (fetch : String → Except String (List Article))
    (analyze : List Article → AnalyzeOutcome) (st : OrchState) (c : Category)
    (arts : List Article)
    (hp : c.apiValue ∈ st.tasks.map BatchTask.id)
    (hf : fetch c.apiValue = .ok arts)
    (hne : (arts.filter (fun a => !(st.used.contains a.link))).length ≠ 0)
    (hirr : analyze (arts.filter (fun a => !(st.used.contains a.link))) =
      AnalyzeOutcome.irrelevant) :
    ∃ t ∈ (gatherStep fetch analyze st c).tasks, t.id = c.apiValue ∧
      t.status = TaskStatus.ERROR ∧ t.error = some (irrelevantMsg c) := by
  have hp1 : c.apiValue ∈ (applyUpdate st c.apiValue
      ⟨some TaskStatus.GATHERING, none, none⟩).tasks.map BatchTask.id := by
    rw [applyUpdate_ids]; exact hp
  simp only [gatherStep, hf]
  rw [if_neg (by simpa [applyUpdate_used] using hne)]
  have hused : (applyUpdate st c.apiValue
      ⟨some TaskStatus.GATHERING, none, none⟩).used = st.used := applyUpdate_used _ _ _
  rw [hused, hirr]
  rcases applyUpdate_writes _ _ TaskStatus.ERROR (some (irrelevantMsg c)) none hp1 with
    ⟨t, hmem, hid, hst, herr⟩
  exact ⟨t, hmem, hid, hst, herr _ rfl⟩

theorem phase1_ids (fetch : String → Except String (List Article))
    (analyze : List Article → AnalyzeOutcome) (cats : List Category) :
    ∀ st : OrchState, (phase1 fetch analyze cats st).tasks.map BatchTask.id =
      st.tasks.map BatchTask.id := by
  induction cats with
  | nil => intro st; rfl
  | cons c cs ih =>
    intro st
    calc (phase1 fetch analyze (c :: cs) st).tasks.map BatchTask.id
        = (gatherStep fetch analyze st c).tasks.map BatchTask.id := ih _
      _ = st.tasks.map BatchTask.id := gatherStep_ids _ _ _ _

theorem phase1_frame (fetch : String → Except String (List Article))
    (analyze : List Article → AnalyzeOutcome) (cats : List Category) :
    ∀ (st : OrchState) (t : BatchTask), t ∈ st.tasks →
      (∀ c ∈ cats, t.id ≠ c.apiValue) →
      t ∈ (phase1 fetch analyze cats st).tasks := by
  induction cats with
  | nil => intro st t ht _; exact ht
  | cons c cs ih =>
    intro st t ht hall
    exact ih _ t
      (gatherStep_frame fetch analyze st c t ht (hall c (List.mem_cons_self c cs)))
      (fun c' hc' => hall c' (List.mem_cons_of_mem c hc'))

/-- Every category of the run reaches a phase-1 terminal state (GATHERED or
ERROR-with-message), independent of the other categories' outcomes. -/
theorem phase1_terminal (fetch : String → Except String (List Article))
    (analyze : List Article → AnalyzeOutcome) :
    ∀ (cats : List Category) (st : OrchState),
      (cats.map Category.apiValue).Nodup →
      (∀ c ∈ cats, c.apiValue ∈ st.tasks.map BatchTask.id) →
      ∀ c ∈ cats, ∃ t ∈ (phase1 fetch analyze cats st).tasks,
        t.id = c.apiValue ∧
          (t.status = TaskStatus.GATHERED ∨
            (t.status = TaskStatus.ERROR ∧ t.error.isSome)) := by
  intro cats
  induction cats with
  | nil => intro st _ _ c hc; exact absurd hc (List.not_mem_nil c)
  | cons c cs ih =>
    intro st hnodup hp c' hc'
    rcases List.mem_cons.mp hc' with rfl | hc'
    · rcases gatherStep_terminal fetch analyze st c'
          (hp c' (List.mem_cons_self c' cs)) with ⟨t, hmem, hid, hterm⟩
      refine ⟨t, ?_, hid, hterm⟩
      apply phase1_frame fetch analyze cs _ t hmem
      intro c'' hc''
      rw [hid]
      intro heq
      exact (List.nodup_cons.mp hnodup).1 (heq ▸ List.mem_map_of_mem Category.apiValue hc'')
    · apply ih
      · exact (List.nodup_cons.mp hnodup).2
      · intro c'' hc''
        rw [gatherStep_ids]
        exact hp c'' (List.mem_cons_of_mem c hc'')
      · exact hc'

theorem processRest_ids (compose : String → Except String String)
    (upload : String → Except String String)
    (webhook : WebhookPayload → Except String Unit)
    (st : OrchState) (d : CollectedData) (src : String) :
    (processRest compose upload webhook st d src).tasks.map BatchTask.id =
      st.tasks.map BatchTask.id := by
  simp only [processRest]
  cases compose src with
  | error m => rw [applyUpdate_ids, applyUpdate_ids]
  | ok img =>
    simp only
    cases upload img with
    | error m => rw [applyUpdate_ids, applyUpdate_ids, applyUpdate_ids]
    | ok url =>
      simp only
      cases webhook (mkPayload d.analysis url d.article) with
      | error m => rw [applyUpdate_ids, applyUpdate_ids, applyUpdate_ids, applyUpdate_ids]
      | ok _ => rw [applyUpdate_ids, applyUpdate_ids, applyUpdate_ids, applyUpdate_ids]

theorem processStep_ids (generate : String → Except String String)
    (compose : String → Except String String)
    (upload : String → Except String String)
    (webhook : WebhookPayload → Except String Unit)
    (st : OrchState) (d : CollectedData) :
    (processStep generate compose upload webhook st d).tasks.map BatchTask.id =
      st.tasks.map BatchTask.id := by
  simp only [processStep]
  cases primaryImage d.article with
  | some u => rw [processRest_ids, applyUpdate_ids]
  | none =>
    simp only
    cases generate d.analysis.imagePrompt with
    | error m => rw [applyUpdate_ids, applyUpdate_ids, applyUpdate_ids]
    | ok src => rw [processRest_ids, applyUpdate_ids, applyUpdate_ids]

theorem processRest_frame (compose : String → Except String String)
    (upload : String → Except String String)
    (webhook : WebhookPayload → Except String Unit)
    (st : OrchState) (d : CollectedData) (src : String)
    (t : BatchTask) (ht : t ∈ st.tasks) (hne : t.id ≠ d.taskId) :
    t ∈ (processRest compose upload webhook st d src).tasks := by
  simp only [processRest]
  cases compose src with
  | error m => exact mem_applyUpdate_of_ne _ _ _ t (mem_applyUpdate_of_ne _ _ _ t ht hne) hne
  | ok img =>
    simp only
    cases upload img with
    | error m =>
      exact mem_applyUpdate_of_ne _ _ _ t
        (mem_applyUpdate_of_ne _ _ _ t (mem_applyUpdate_of_ne _ _ _ t ht hne) hne) hne
    | ok url =>
      simp only
      cases webhook (mkPayload d.analysis url d.article) with
      | error m =>
        exact mem_applyUpdate_of_ne _ _ _ t (mem_applyUpdate_of_ne _ _ _ t
          (mem_applyUpdate_of_ne _ _ _ t (mem_applyUpdate_of_ne _ _ _ t ht hne) hne) hne) hne
      | ok _ =>
        exact mem_applyUpdate_of_ne _ _ _ t (mem_applyUpdate_of_ne _ _ _ t
          (mem_applyUpdate_of_ne _ _ _ t (mem_applyUpdate_of_ne _ _ _ t ht hne) hne) hne) hne

theorem processStep_frame (generate : String → Except String String)
    (compose : String → Except String String)
    (upload : String → Except String String)
    (webhook : WebhookPayload → Except String Unit)
    (st : OrchState) (d : CollectedData)
    (t : BatchTask) (ht : t ∈ st.tasks) (hne : t.id ≠ d.taskId) :
    t ∈ (processStep generate compose upload webhook st d).tasks := by
  simp only [processStep]
  cases primaryImage d.article with
  | some u =>
    exact processRest_frame _ _ _ _ d u t (mem_applyUpdate_of_ne _ _ _ t ht hne) hne
  | none =>
    simp only
    cases generate d.analysis.imagePrompt with
    | error m =>
      exact mem_applyUpdate_of_ne _ _ _ t
        (mem_applyUpdate_of_ne _ _ _ t (mem_applyUpdate_of_ne _ _ _ t ht hne) hne) hne
    | ok src =>
      exact processRest_frame _ _ _ _ d src t
        (mem_applyUpdate_of_ne _ _ _ t (mem_applyUpdate_of_ne _ _ _ t ht hne) hne) hne

/-- Once processing of a collected item starts, its task ends the iteration
either DONE or ERROR with a recorded message. -/
theorem processRest_terminal (compose : String → Except String String)
    (upload : String → Except String String)
    (webhook : WebhookPayload → Except String Unit)
    (st : OrchState) (d : CollectedData) (src : String)
    (hp : d.taskId ∈ st.tasks.map BatchTask.id) :
    ∃ t ∈ (processRest compose upload webhook st d src).tasks, t.id = d.taskId ∧
      (t.status = TaskStatus.DONE ∨
        (t.status = TaskStatus.ERROR ∧ t.error.isSome)) := by
  have hp3 : d.taskId ∈ (applyUpdate st d.taskId
      ⟨some TaskStatus.COMPOSING, none, none⟩).tasks.map BatchTask.id := by
    rw [applyUpdate_ids]; exact hp
  simp only [processRest]
  cases compose src with
  | error m =>
    rcases applyUpdate_writes _ _ TaskStatus.ERROR (some m) none hp3 with
      ⟨t, hmem, hid, hst, herr⟩
    exact ⟨t, hmem, hid, Or.inr ⟨hst, by rw [herr m rfl]; rfl⟩⟩
  | ok img =>
    simp only
    have hp4 : d.taskId ∈ (applyUpdate (applyUpdate st d.taskId
        ⟨some TaskStatus.COMPOSING, none, none⟩) d.taskId
        ⟨some TaskStatus.UPLOADING, none, none⟩).tasks.map BatchTask.id := by
      rw [applyUpdate_ids]; exact hp3
    cases upload img with
    | error m =>
      rcases applyUpdate_writes _ _ TaskStatus.ERROR (some m) none hp4 with
        ⟨t, hmem, hid, hst, herr⟩
      exact ⟨t, hmem, hid, Or.inr ⟨hst, by rw [herr m rfl]; rfl⟩⟩
    | ok url =>
      simp only
      have hp5 : d.taskId ∈ (applyUpdate (applyUpdate (applyUpdate st d.taskId
          ⟨some TaskStatus.COMPOSING, none, none⟩) d.taskId
          ⟨some TaskStatus.UPLOADING, none, none⟩) d.taskId
          ⟨some TaskStatus.SENDING_WEBHOOK, none, none⟩).tasks.map BatchTask.id := by
        rw [applyUpdate_ids]; exact hp4
      cases webhook (mkPayload d.analysis url d.article) with
      | error m =>
        rcases applyUpdate_writes _ _ TaskStatus.ERROR (some m) none hp5 with
          ⟨t, hmem, hid, hst, herr⟩
        exact ⟨t, hmem, hid, Or.inr ⟨hst, by rw [herr m rfl]; rfl⟩⟩
      | ok _ =>
        rcases applyUpdate_writes _ _ TaskStatus.DONE none
            (some ⟨d.analysis.headline, url, d.analysis.caption,
              d.article.link, d.analysis.sourceName⟩) hp5 with
          ⟨t, hmem, hid, hst, _⟩
        exact ⟨t, hmem, hid, Or.inl hst⟩

theorem processStep_terminal (generate : String → Except String String)
    (compose : String → Except String String)
    (upload : String → Except String String)
    (webhook : WebhookPayload → Except String Unit)
    (st : OrchState) (d : CollectedData)
    (hp : d.taskId ∈ st.tasks.map BatchTask.id) :
    ∃ t ∈ (processStep generate compose upload webhook st d).tasks,
      t.id = d.taskId ∧
        (t.status = TaskStatus.DONE ∨
          (t.status = TaskStatus.ERROR ∧ t.error.isSome)) := by
  have hp1 : d.taskId ∈ (applyUpdate st d.taskId
      ⟨some TaskStatus.PROCESSING, none, none⟩).tasks.map BatchTask.id := by
    rw [applyUpdate_ids]; exact hp
  simp only [processStep]
  cases primaryImage d.article with
  | some u => exact processRest_terminal _ _ _ _ d u hp1
  | none =>
    simp only
    have hp2 : d.taskId ∈ (applyUpdate (applyUpdate st d.taskId
        ⟨some TaskStatus.PROCESSING, none, none⟩) d.taskId
        ⟨some TaskStatus.GENERATING_IMAGE, none, none⟩).tasks.map BatchTask.id := by
      rw [applyUpdate_ids]; exact hp1
    cases generate d.analysis.imagePrompt with
    | error m =>
      rcases applyUpdate_writes _ _ TaskStatus.ERROR (some m) none hp2 with
        ⟨t, hmem, hid, hst, herr⟩
      exact ⟨t, hmem, hid, Or.inr ⟨hst, by rw [herr m rfl]; rfl⟩⟩
    | ok src => exact processRest_terminal _ _ _ _ d src hp2

theorem phase2_frame (generate : String → Except String String)
    (compose : String → Except String String)
    (upload : String → Except String String)
    (webhook : WebhookPayload → Except String Unit) :
    ∀ (collected : List CollectedData) (st : OrchState) (t : BatchTask),
      t ∈ st.tasks → (∀ d ∈ collected, t.id ≠ d.taskId) →
      t ∈ (phase2 generate compose upload webhook collected st).tasks := by
  intro collected
  induction collected with
  | nil => intro st t ht _; exact ht
  | cons d ds ih =>
    intro st t ht hall
    exact ih _ t
      (processStep_frame generate compose upload webhook st d t ht
        (hall d (List.mem_cons_self d ds)))
      (fun d' hd' => hall d' (List.mem_cons_of_mem d hd'))

theorem phase2_terminal (generate : String → Except String String)
    (compose : String → Except String String)
    (upload : String → Except String String)
    (webhook : WebhookPayload → Except String Unit) :
    ∀ (collected : List CollectedData) (st : OrchState),
      (collected.map CollectedData.taskId).Nodup →
      (∀ d ∈ collected, d.taskId ∈ st.tasks.map BatchTask.id) →
      ∀ d ∈ collected,
        ∃ t ∈ (phase2 generate compose upload webhook collected st).tasks,
          t.id = d.taskId ∧
            (t.status = TaskStatus.DONE ∨
              (t.status = TaskStatus.ERROR ∧ t.error.isSome)) := by
  intro collected
  induction collected with
  | nil => intro st _ _ d hd; exact absurd hd (List.not_mem_nil d)
  | cons d ds ih =>
    intro st hnodup hp d' hd'
    rcases List.mem_cons.mp hd' with rfl | hd'
    · rcases processStep_terminal generate compose upload webhook st d'
          (hp d' (List.mem_cons_self d' ds)) with ⟨t, hmem, hid, hterm⟩
      refine ⟨t, ?_, hid, hterm⟩
      apply phase2_frame generate compose upload webhook ds _ t hmem
      intro d'' hd''
      rw [hid]
      intro heq
      exact (List.nodup_cons.mp hnodup).1
        (heq ▸ List.mem_map_of_mem CollectedData.taskId hd'')
    · apply ih
      · exact (List.nodup_cons.mp hnodup).2
      · intro d'' hd''
        rw [processStep_ids]
        exact hp d'' (List.mem_cons_of_mem d hd'')
      · exact hd'

theorem initTasks_ids (cats : List Category) :
    (initTasks cats).map BatchTask.id = cats.map Category.apiValue := by
  simp [initTasks, List.map_map, Function.comp]

/-- C9: every failure in either phase is caught at per-category
granularity — after phase 1 every category's task is GATHERED or ERROR with
a recorded message (a failing category never aborts the remaining ones);
the analysis collaborator's `null` is recorded as such a per-category ERROR
with its dedicated message; and phase 2 likewise drives every collected
item's task to DONE or ERROR with a recorded message. -/
theorem C9_failure_isolation
    (fetch : String → Except String (List Article))
    (analyze : List Article → AnalyzeOutcome)
    (generate compose upload : String → Except String String)
    (webhook : WebhookPayload → Except String Unit)
    (cats : List Category)
    (hnodup : (cats.map Category.apiValue).Nodup) :
    (∀ c ∈ cats, ∃ t ∈ (phase1 fetch analyze cats (initState cats)).tasks,
        t.id = c.apiValue ∧
          (t.status = TaskStatus.GATHERED ∨
            (t.status = TaskStatus.ERROR ∧ t.error.isSome))) ∧
    (∀ (st : OrchState) (c : Category) (arts : List Article),
        c.apiValue ∈ st.tasks.map BatchTask.id →
        fetch c.apiValue = .ok arts →
        (arts.filter (fun a => !(st.used.contains a.link))).length ≠ 0 →
        analyze (arts.filter (fun a => !(st.used.contains a.link))) =
          AnalyzeOutcome.irrelevant →
        ∃ t ∈ (gatherStep fetch analyze st c).tasks, t.id = c.apiValue ∧
          t.status = TaskStatus.ERROR ∧ t.error = some (irrelevantMsg c)) ∧
    (∀ (collected : List CollectedData) (st : OrchState),
        (collected.map CollectedData.taskId).Nodup →
        (∀ d ∈ collected, d.taskId ∈ st.tasks.map BatchTask.id) →
        ∀ d ∈ collected,
          ∃ t ∈ (phase2 generate compose upload webhook collected st).tasks,
            t.id = d.taskId ∧
              (t.status = TaskStatus.DONE ∨
                (t.status = TaskStatus.ERROR ∧ t.error.isSome))) := by
  refine ⟨?_, ?_, phase2_terminal generate compose upload webhook⟩
  · apply phase1_terminal fetch analyze cats (initState cats) hnodup
    intro c hc
    show c.apiValue ∈ (initTasks cats).map BatchTask.id
    rw [initTasks_ids]
    exact List.mem_map_of_mem Category.apiValue hc
  · intro st c arts hp hf hne hirr
    exact gatherStep_null fetch analyze st c arts hp hf hne hirr

/-- A fixed article used in the closed orchestrator instances. -/
def artW : Article := ⟨"l1", none, some "img"⟩

/-- Fixed collaborators used in the closed orchestrator instances. -/
def fetchW : String → Except String (List Article) := fun _ => Except.ok [artW]

/-- Closed instance of C9 on a concrete single-category run. -/
theorem C9_failure_isolation_witness :
    (∀ c ∈ [(⟨"Trending", "top"⟩ : Category)],
        ∃ t ∈ (phase1 fetchW analyzeFirst [⟨"Trending", "top"⟩]
            (initState [⟨"Trending", "top"⟩])).tasks,
          t.id = c.apiValue ∧
            (t.status = TaskStatus.GATHERED ∨
              (t.status = TaskStatus.ERROR ∧ t.error.isSome))) ∧
    (∀ (st : OrchState) (c : Category) (arts : List Article),
        c.apiValue ∈ st.tasks.map BatchTask.id →
        fetchW c.apiValue = .ok arts →
        (arts.filter (fun a => !(st.used.contains a.link))).length ≠ 0 →
        analyzeFirst (arts.filter (fun a => !(st.used.contains a.link))) =
          AnalyzeOutcome.irrelevant →
        ∃ t ∈ (gatherStep fetchW analyzeFirst st c).tasks, t.id = c.apiValue ∧
          t.status = TaskStatus.ERROR ∧ t.error = some (irrelevantMsg c)) ∧
    (∀ (collected : List CollectedData) (st : OrchState),
        (collected.map CollectedData.taskId).Nodup →
        (∀ d ∈ collected, d.taskId ∈ st.tasks.map BatchTask.id) →
        ∀ d ∈ collected,
          ∃ t ∈ (phase2 Except.ok Except.ok Except.ok
              (fun _ => Except.ok ()) collected st).tasks,
            t.id = d.taskId ∧
              (t.status = TaskStatus.DONE ∨
                (t.status = TaskStatus.ERROR ∧ t.error.isSome))) :=
  C9_failure_isolation fetchW analyzeFirst Except.ok Except.ok Except.ok
    (fun _ => Except.ok ()) [⟨"Trending", "top"⟩] (by decide)

/-! ### C8: client phase-2 image acquisition (standalone `App.tsx`)

The client variant really attempts `loadImage(article.image_url!)`; on any
failure (including a missing reference) it transitions to GENERATING_IMAGE,
generates a substitute from the analysis prompt and loads it, and only a
failure of that substitute path throws to the per-category catch.  The
observable behaviour of one phase-2 iteration is its ordered sequence of
`updateTask` calls. -/

/-- Loading `await loadImage(article.image_url!)`: a missing reference rejects like
any other load failure. -/
def clientArticleLoad {I : Type} (load : String → Except String I)
    (art : Article) : Except String I :=
  match art.image_url with
  | none => Except.error "Cannot load image from undefined source."
  | some u => load u

/-- The `updateTask` calls of one client phase-2 iteration from the
COMPOSING step on. -/
def clientRestCalls {I : Type} (compose : I → Except String String)
    (upload : String → Except String String)
    (webhook : WebhookPayload → Except String Unit)
    (an : NewsAnalysis) (art : Article) (img : I) : List TaskUpdates :=
  ⟨some TaskStatus.COMPOSING, none, none⟩ ::
    match compose img with
    | .error m => [⟨some TaskStatus.ERROR, some m, none⟩]
    | .ok enc =>
      ⟨some TaskStatus.UPLOADING, none, none⟩ ::
        match upload enc with
        | .error m => [⟨some TaskStatus.ERROR, some m, none⟩]
        | .ok url =>
          ⟨some TaskStatus.SENDING_WEBHOOK, none, none⟩ ::
            match webhook (mkPayload an url art) with
            | .error m => [⟨some TaskStatus.ERROR, some m, none⟩]
            | .ok _ =>
              [⟨some TaskStatus.DONE, none,
                some ⟨an.headline, url, an.caption, art.link, an.sourceName⟩⟩]

/-- The full ordered `updateTask` call sequence of one client phase-2
iteration for one collected item. -/
def clientProcessCalls {I : Type} (load : String → Except String I)
    (generate : String → Except String String)
    (compose : I → Except String String)
    (upload : String → Except String String)
    (webhook : WebhookPayload → Except String Unit)
    (an : NewsAnalysis) (art : Article) : List TaskUpdates :=
  ⟨some TaskStatus.PROCESSING, none, none⟩ ::
    match clientArticleLoad load art with
    | .ok img => clientRestCalls compose upload webhook an art img
    | .error _ =>
      ⟨some TaskStatus.GENERATING_IMAGE, none, none⟩ ::
        match generate an.imagePrompt with
        | .error m => [⟨some TaskStatus.ERROR, some m, none⟩]
        | .ok b64 =>
          match load b64 with
          | .error m => [⟨some TaskStatus.ERROR, some m, none⟩]
          | .ok img => clientRestCalls compose upload webhook an art img

/-- The observed status sequence of one client phase-2 iteration. -/
def clientStatuses {I : Type} (load : String → Except String I)
    (generate : String → Except String String)
    (compose : I → Except String String)
    (upload : String → Except String String)
    (webhook : WebhookPayload → Except String Unit)
    (an : NewsAnalysis) (art : Article) : List TaskStatus :=
  (clientProcessCalls load generate compose upload webhook an art).filterMap
    TaskUpdates.status

theorem clientRest_no_generating {I : Type} (compose : I → Except String String)
    (upload : String → Except String String)
    (webhook : WebhookPayload → Except String Unit)
    (an : NewsAnalysis) (art : Article) (img : I) :
    TaskStatus.GENERATING_IMAGE ∉
      (clientRestCalls compose upload webhook an art img).filterMap
        TaskUpdates.status := by
  simp only [clientRestCalls]
  cases compose img with
  | error m => simp
  | ok enc =>
    simp only
    cases upload enc with
    | error m => simp
    | ok url =>
      simp only
      cases webhook (mkPayload an url art) with
      | error m => simp
      | ok _ => simp

theorem clientRest_composing {I : Type} (compose : I → Except String String)
    (upload : String → Except String String)
    (webhook : WebhookPayload → Except String Unit)
    (an : NewsAnalysis) (art : Article) (img : I) :
    TaskStatus.COMPOSING ∈
      (clientRestCalls compose upload webhook an art img).filterMap
        TaskUpdates.status := by
  simp only [clientRestCalls]
  cases compose img with
  | error m => simp
  | ok enc =>
    simp only
    cases upload enc with
    | error m => simp
    | ok url =>
      simp only
      cases webhook (mkPayload an url art) with
      | error m => simp
      | ok _ => simp

/-- C8: if the article's own image loads, GENERATING_IMAGE is never
observed; if that acquisition fails, the task passes through
GENERATING_IMAGE immediately after PROCESSING — before any COMPOSING; a
failure of the substitute generation then fails the task (ERROR), while a
successful substitute continues to COMPOSING. -/
theorem C8_image_acquisition {I : Type} (load : String → Except String I)
    (generate : String → Except String String)
    (compose : I → Except String String)
    (upload : String → Except String String)
    (webhook : WebhookPayload → Except String Unit)
    (an : NewsAnalysis) (art : Article) :
    (∀ img, clientArticleLoad load art = .ok img →
        TaskStatus.GENERATING_IMAGE ∉
          clientStatuses load generate compose upload webhook an art) ∧
    (∀ e, clientArticleLoad load art = .error e →
        (clientStatuses load generate compose upload webhook an art).take 2 =
          [TaskStatus.PROCESSING, TaskStatus.GENERATING_IMAGE]) ∧
    (∀ e m, clientArticleLoad load art = .error e →
        generate an.imagePrompt = .error m →
        clientStatuses load generate compose upload webhook an art =
          [TaskStatus.PROCESSING, TaskStatus.GENERATING_IMAGE,
            TaskStatus.ERROR]) ∧
    (∀ e b64 img, clientArticleLoad load art = .error e →
        generate an.imagePrompt = .ok b64 → load b64 = .ok img →
        TaskStatus.COMPOSING ∈
          clientStatuses load generate compose upload webhook an art) := by
  refine ⟨?_, ?_, ?_, ?_⟩
  · intro img hok
    simp only [clientStatuses, clientProcessCalls, hok]
    intro hmem
    rcases List.mem_filterMap.mp hmem with ⟨u, hu, hus⟩
    rcases List.mem_cons.mp hu with rfl | hu
    · exact absurd hus (by simp)
    · exact clientRest_no_generating compose upload webhook an art img
        (List.mem_filterMap.mpr ⟨u, hu, hus⟩)
  · intro e herr
    simp only [clientStatuses, clientProcessCalls, herr]
    cases generate an.imagePrompt with
    | error m => simp
    | ok b64 =>
      simp only
      cases load b64 with
      | error m => simp
      | ok img =>
        simp only [List.filterMap_cons]
        rfl
  · intro e m herr hgen
    simp only [clientStatuses, clientProcessCalls, herr, hgen]
    rfl
  · intro e b64 img herr hgen hload
    simp only [clientStatuses, clientProcessCalls, herr, hgen, hload]
    simp only [List.filterMap_cons]
    exact List.mem_cons_of_mem _ (List.mem_cons_of_mem _
      (clientRest_composing compose upload webhook an art img))

/-- Fixed collaborators for the closed C8 instances. -/
def loadW : String → Except String String :=
  fun s => if s = "img" then Except.ok s else Except.error "load failure"

/-- An analysis bundle used by the closed C8 instances. -/
def anW : NewsAnalysis := ⟨"headline", ["headline"], "caption", "img", "src"⟩

/-- Closed instance of C8: with a loadable article image GENERATING_IMAGE
is never observed; with a missing image reference the task passes through
GENERATING_IMAGE right after PROCESSING; generation failure fails the task;
generation success reaches COMPOSING. -/
theorem C8_image_acquisition_witness :
    (TaskStatus.GENERATING_IMAGE ∉
        clientStatuses loadW Except.ok Except.ok Except.ok
          (fun _ => Except.ok ()) anW ⟨"l1", none, some "img"⟩) ∧
    ((clientStatuses loadW Except.ok Except.ok Except.ok
          (fun _ => Except.ok ()) anW ⟨"l1", none, none⟩).take 2 =
      [TaskStatus.PROCESSING, TaskStatus.GENERATING_IMAGE]) ∧
    (clientStatuses loadW (fun _ => Except.error "generation failure")
        Except.ok Except.ok (fun _ => Except.ok ()) anW ⟨"l1", none, none⟩ =
      [TaskStatus.PROCESSING, TaskStatus.GENERATING_IMAGE, TaskStatus.ERROR]) ∧
    (TaskStatus.COMPOSING ∈
        clientStatuses loadW Except.ok Except.ok Except.ok
          (fun _ => Except.ok ()) anW ⟨"l1", none, none⟩) :=
  ⟨(C8_image_acquisition loadW Except.ok Except.ok Except.ok
      (fun _ => Except.ok ()) anW ⟨"l1", none, some "img"⟩).1 "img" rfl,
   (C8_image_acquisition loadW Except.ok Except.ok Except.ok
      (fun _ => Except.ok ()) anW ⟨"l1", none, none⟩).2.1 _ rfl,
   (C8_image_acquisition loadW (fun _ => Except.error "generation failure")
      Except.ok Except.ok (fun _ => Except.ok ()) anW ⟨"l1", none, none⟩).2.2.1
      _ "generation failure" rfl rfl,
   (C8_image_acquisition loadW Except.ok Except.ok Except.ok
      (fun _ => Except.ok ()) anW ⟨"l1", none, none⟩).2.2.2
      _ "img" "img" rfl rfl rfl⟩

/-! ### C4: greedy word wrap (`calculateLines` in `utils/canvas.ts`)

`measureText` depends on the canvas font state, so the measured width is an
abstract function `List Char → ℚ`; the wrap never needs any property of
it.  `text.split(' ')` is `splitOnChar ' '`. -/

/-- The loop body of `calculateLines` over the word list. -/
def calcGo (width : List Char → ℚ) (maxWidth : ℚ) :
    List (List Char) → List Char → List (List Char)
  | [], currentLine => [currentLine]
  | w :: ws, currentLine =>
    let testLine := if currentLine.length > 0 then currentLine ++ ' ' :: w else w
    if width testLine > maxWidth ∧ currentLine.length > 0 then
      currentLine :: calcGo width maxWidth ws w
    else
      calcGo width maxWidth ws testLine

/-- Wrapping per `calculateLines(context, text, maxWidth)`. -/
def calculateLines (width : List Char → ℚ) (text : List Char) (maxWidth : ℚ) :
    List (List Char) :=
  calcGo width maxWidth (splitOnChar ' ' text) []

theorem calcGo_inv (width : List Char → ℚ) (maxWidth : ℚ)
    (ws : List (List Char)) :
    ∀ currentLine : List Char, (∀ w ∈ ws, ' ' ∉ w) →
      (width currentLine ≤ maxWidth ∨ ' ' ∉ currentLine) →
      ∀ l ∈ calcGo width maxWidth ws currentLine,
        width l ≤ maxWidth ∨ ' ' ∉ l := by
  induction ws with
  | nil =>
    intro cur _ hcur l hl
    rcases List.mem_singleton.mp hl with rfl
    exact hcur
  | cons w ws ih =>
    intro cur hws hcur l hl
    have hwmem : ' ' ∉ w := hws w (List.mem_cons_self w ws)
    have hwstail : ∀ w' ∈ ws, ' ' ∉ w' :=
      fun w' hw' => hws w' (List.mem_cons_of_mem w hw')
    simp only [calcGo] at hl
    by_cases hclen : cur.length > 0
    · rw [if_pos hclen] at hl
      by_cases hwide : width (cur ++ ' ' :: w) > maxWidth
      · rw [if_pos ⟨hwide, hclen⟩] at hl
        rcases List.mem_cons.mp hl with rfl | hl
        · exact hcur
        · exact ih w hwstail (Or.inr hwmem) l hl
      · rw [if_neg (fun hc => hwide hc.1)] at hl
        exact ih _ hwstail (Or.inl (le_of_not_lt hwide)) l hl
    · rw [if_neg hclen] at hl
      rw [if_neg (fun hc => hclen hc.2)] at hl
      exact ih w hwstail (Or.inr hwmem) l hl

/-- C4: for every headline, measured-width function and positive bound,
every produced line either fits within the bound or is a single word
(contains no space) that alone exceeds it. -/
theorem C4_wrap_within_bound (width : List Char → ℚ) (text : List Char)
    (maxWidth : ℚ) (hpos : 0 < maxWidth) :
    ∀ l ∈ calculateLines width text maxWidth,
      width l ≤ maxWidth ∨ ' ' ∉ l := by
  apply calcGo_inv width maxWidth (splitOnChar ' ' text) []
  · exact splitOnChar_not_mem ' ' text
  · exact Or.inr (List.not_mem_nil ' ')

/-- Closed instance of C4 with the character-count width at bound 5 on
"hello world": every produced line fits or is a lone over-long word. -/
theorem C4_wrap_within_bound_witness :
    (0 : ℚ) < 5 ∧
      ∀ l ∈ calculateLines (fun l => (l.length : ℚ))
          ['h', 'e', 'l', 'l', 'o', ' ', 'w', 'o', 'r', 'l', 'd'] 5,
        (fun l => (l.length : ℚ)) l ≤ 5 ∨ ' ' ∉ l :=
  ⟨by norm_num,
    C4_wrap_within_bound (fun l => (l.length : ℚ))
      ['h', 'e', 'l', 'l', 'o', ' ', 'w', 'o', 'r', 'l', 'd'] 5 (by norm_num)⟩

/-! ### C5: the font-fitting loop of `composeImage`

`while (fontSize > 20) { lineHeight = fontSize*1.2; lines = ...;
if (lines.length*lineHeight <= maxTextHeight) break; fontSize -= 4; }` —
the loop starts at 72 and decrements by 4, but the loop condition is
re-checked only after the decrement, so the layout values actually used for
rendering come from the last executed body, whose smallest possible font
size is 24, not the floor 20. -/

/-- Size `fs` fits when the wrapped lines at that size fit the bounding
height.  The measured width depends on the font size (`w fs`). -/
def fitsAt (w : ℕ → List Char → ℚ) (text : List Char) (maxW maxH : ℚ)
    (fs : ℕ) : Prop :=
  ((calculateLines (w fs) text maxW).length : ℚ) * ((fs : ℚ) * (6 / 5)) ≤ maxH

instance fitsAt.instDec (w : ℕ → List Char → ℚ) (text : List Char)
    (maxW maxH : ℚ) (fs : ℕ) : Decidable (fitsAt w text maxW maxH fs) := by
  unfold fitsAt
  infer_instance

/-- The font-fit loop, returning the (font size, lines, line height) in
effect when the loop stops — the values used for rendering. -/
def fontFitLoop (w : ℕ → List Char → ℚ) (text : List Char) (maxW maxH : ℚ)
    (fs : ℕ) : ℕ × List (List Char) × ℚ :=
  let lineHeight : ℚ := (fs : ℚ) * (6 / 5)
  let lines := calculateLines (w fs) text maxW
  if (lines.length : ℚ) * lineHeight ≤ maxH then (fs, lines, lineHeight)
  else if h : 20 < fs - 4 then fontFitLoop w text maxW maxH (fs - 4)
  else (fs, lines, lineHeight)
termination_by fs
decreasing_by omega

/-- The font fit as run by `composeImage`, starting at the maximum size 72. -/
def fontFit (w : ℕ → List Char → ℚ) (text : List Char) (maxW maxH : ℚ) :
    ℕ × List (List Char) × ℚ :=
  fontFitLoop w text maxW maxH 72

theorem fontFitLoop_bounds (w : ℕ → List Char → ℚ) (text : List Char)
    (maxW maxH : ℚ) :
    ∀ fs, fs % 4 = 0 → 24 ≤ fs →
      24 ≤ (fontFitLoop w text maxW maxH fs).1 ∧
        (fontFitLoop w text maxW maxH fs).1 ≤ fs ∧
        (fontFitLoop w text maxW maxH fs).1 % 4 = 0 := by
  intro fs
  induction fs using Nat.strong_induction_on with
  | _ fs ih =>
    intro hmod hge
    rw [fontFitLoop]
    split
    · exact ⟨hge, le_refl _, hmod⟩
    · split
      · rename_i hgt
        have h4 : fs - 4 < fs := by omega
        have hge' : 24 ≤ fs - 4 := by omega
        have hmod' : (fs - 4) % 4 = 0 := by omega
        rcases ih (fs - 4) h4 hmod' hge' with ⟨h₁, h₂, h₃⟩
        exact ⟨h₁, le_trans h₂ (by omega), h₃⟩
      · exact ⟨hge, le_refl _, hmod⟩

theorem fontFitLoop_all_unfit (w : ℕ → List Char → ℚ) (text : List Char)
    (maxW maxH : ℚ)
    (hnofit : ∀ g, g < 73 → 24 ≤ g → ¬ fitsAt w text maxW maxH g) :
    ∀ fs, fs % 4 = 0 → 24 ≤ fs → fs ≤ 72 →
      (fontFitLoop w text maxW maxH fs).1 = 24 := by
  intro fs
  induction fs using Nat.strong_induction_on with
  | _ fs ih =>
    intro hmod hge hle
    rw [fontFitLoop]
    split
    · rename_i hfits
      exact absurd hfits (hnofit fs (by omega) hge)
    · split
      · rename_i hgt
        exact ih (fs - 4) (by omega) (by omega) (by omega) (by omega)
      · rename_i hstop
        have : fs = 24 := by omega
        simpa using this

/-- A measured width so large that nothing ever fits a zero-height box. -/
def wBig : ℕ → List Char → ℚ := fun _ _ => 10000

theorem wBig_calc (g : ℕ) : calculateLines (wBig g) ['a'] 960 = [['a']] := by
  norm_num [calculateLines, calcGo, splitOnChar, wBig]

theorem wBig_unfit (g : ℕ) (hge : 24 ≤ g) : ¬ fitsAt wBig ['a'] 960 0 g := by
  rw [fitsAt, wBig_calc g]
  simp only [List.length_singleton, Nat.cast_one, one_mul]
  intro hle
  have hg : (24 : ℚ) ≤ (g : ℚ) := by exact_mod_cast hge
  nlinarith

/-- C5 counterexample: with a headline that fits at no size, the floor size
20 indeed does not fit, yet the values used for rendering come from font
size 24, not the floor — "rendering occurs at the floor size" is false. -/
theorem C5_counterexample :
    ¬ fitsAt wBig ['a'] 960 0 20 ∧
      (fontFit wBig ['a'] 960 0).1 = 24 ∧ (24 : ℕ) ≠ 20 :=
  ⟨by rw [fitsAt, wBig_calc 20]; norm_num,
    fontFitLoop_all_unfit wBig ['a'] 960 0 (fun g _ hge => wBig_unfit g hge) 72
      (by decide) (by decide) (by decide),
    by decide⟩

/-- C5 amended: the loop always terminates with a rendered font size in
{24, 28, ..., 72} — never below, and in particular never below the floor
20; if no laid-out size fits, rendering still happens, at size 24 (one
decrement above the floor), rather than failing. -/
theorem C5_font_floor (w : ℕ → List Char → ℚ) (text : List Char)
    (maxW maxH : ℚ) :
    (24 ≤ (fontFit w text maxW maxH).1 ∧ (fontFit w text maxW maxH).1 ≤ 72 ∧
        (fontFit w text maxW maxH).1 % 4 = 0) ∧
      ((∀ g, g < 73 → 24 ≤ g → ¬ fitsAt w text maxW maxH g) →
        (fontFit w text maxW maxH).1 = 24) := by
  constructor
  · exact fontFitLoop_bounds w text maxW maxH 72 (by decide) (by decide)
  · intro hnofit
    exact fontFitLoop_all_unfit w text maxW maxH hnofit 72 (by decide)
      (by decide) (by decide)

/-- Closed instance of the amended C5 on the all-too-wide headline. -/
theorem C5_font_floor_witness :
    (24 ≤ (fontFit wBig ['a'] 960 0).1 ∧ (fontFit wBig ['a'] 960 0).1 ≤ 72 ∧
        (fontFit wBig ['a'] 960 0).1 % 4 = 0) ∧
      (fontFit wBig ['a'] 960 0).1 = 24 :=
  ⟨(C5_font_floor wBig ['a'] 960 0).1,
    (C5_font_floor wBig ['a'] 960 0).2 (fun g _ hge => wBig_unfit g hge)⟩

/-! ### C6: case-insensitive overlapping highlight scan
(`drawHeadlineWithHighlights` in `utils/canvas.ts`)

The scan loop is `while ((startIndex = lower(line).indexOf(lower(phrase),
searchFromIndex)) !== -1) { ...; searchFromIndex = startIndex + 1 }`.
`indexOf(pat, from)` is the least index `≥ from` at which `pat` occurs
(its empty-pattern clamping is irrelevant here: highlight phrases are
non-empty, and every theorem assumes so).  Rectangles for all phrases are
drawn before the line's text. -/

/-- Occurrence of `pat` in `line` starting at offset `i`. -/
def occursAt (pat line : List Char) (i : ℕ) : Prop :=
  (line.drop i).take pat.length = pat

instance occursAt.instDec (pat line : List Char) (i : ℕ) :
    Decidable (occursAt pat line i) := by
  unfold occursAt
  infer_instance

/-- All match offsets found by the `indexOf` loop from `frm` on: each found
offset is the least occurrence at or after the current search index, and
the search resumes one character later. -/
def scanOffsets (line pat : List Char) (frm : ℕ) : List ℕ :=
  if h : ∃ i, i < line.length + 1 ∧ frm ≤ i ∧ occursAt pat line i then
    Nat.find h :: scanOffsets line pat (Nat.find h + 1)
  else []
termination_by line.length + 1 - frm
decreasing_by
  have h1 := (Nat.find_spec h).1
  have h2 := (Nat.find_spec h).2.1
  omega

/-- The case-insensitive scan of one line for one phrase, from offset 0. -/
def lineScan (line pat : List Char) : List ℕ :=
  scanOffsets (line.map Char.toLower) (pat.map Char.toLower) 0

theorem occursAt_le (pat line : List Char) (hp : pat ≠ []) (i : ℕ)
    (h : occursAt pat line i) : i ≤ line.length := by
  by_contra hgt
  push_neg at hgt
  have hd : line.drop i = [] := List.drop_eq_nil_of_le (le_of_lt hgt)
  rw [occursAt, hd, List.take_nil] at h
  exact hp h.symm

/-- The scan finds exactly the occurrences at or after the start index:
every starting offset, including overlapping ones. -/
theorem scanOffsets_iff (line pat : List Char) (hp : pat ≠ []) :
    ∀ frm j, j ∈ scanOffsets line pat frm ↔ (frm ≤ j ∧ occursAt pat line j) := by
  have key : ∀ n frm, line.length + 1 - frm ≤ n → ∀ j,
      (j ∈ scanOffsets line pat frm ↔ (frm ≤ j ∧ occursAt pat line j)) := by
    intro n
    induction n with
    | zero =>
      intro frm hfrm j
      have hgt : line.length + 1 ≤ frm := by omega
      rw [scanOffsets, dif_neg]
      · simp only [List.not_mem_nil, false_iff]
        rintro ⟨hj, hocc⟩
        have := occursAt_le pat line hp j hocc
        omega
      · rintro ⟨i, hi, hfi, _⟩
        omega
    | succ n ih =>
      intro frm hfrm j
      rw [scanOffsets]
      by_cases h : ∃ i, i < line.length + 1 ∧ frm ≤ i ∧ occursAt pat line i
      · rw [dif_pos h]
        have hspec := Nat.find_spec h
        constructor
        · intro hj
          rcases List.mem_cons.mp hj with rfl | hj
          · exact ⟨hspec.2.1, hspec.2.2⟩
          · have hrec := (ih (Nat.find h + 1) (by omega) j).mp hj
            exact ⟨by omega, hrec.2⟩
        · rintro ⟨hfj, hocc⟩
          have hjle : j ≤ line.length := occursAt_le pat line hp j hocc
          have hge : Nat.find h ≤ j := Nat.find_min' h ⟨by omega, hfj, hocc⟩
          rcases Nat.eq_or_lt_of_le hge with heq | hlt
          · exact heq ▸ List.mem_cons_self _ _
          · refine List.mem_cons_of_mem _ ?_
            exact (ih (Nat.find h + 1) (by omega) j).mpr ⟨by omega, hocc⟩
      · rw [dif_neg h]
        simp only [List.not_mem_nil, false_iff]
        rintro ⟨hfj, hocc⟩
        have hjle : j ≤ line.length := occursAt_le pat line hp j hocc
        exact h ⟨j, by omega, hfj, hocc⟩
  intro frm j
  exact key (line.length + 1 - frm) frm (le_refl _) j

/-- One drawing action of `drawHeadlineWithHighlights`. -/
inductive DrawEvent where
  | rect (x y w h : ℚ)
  | text (s : List Char) (x y : ℚ)
deriving DecidableEq

/-- The drawing actions for one rendered line: one highlight rectangle per
case-insensitive match of each phrase (positioned by the measured width of
the text before the match and sized by the measured width of the matched
text), FOLLOWED by the line's text. -/
def drawLineEvents (width : List Char → ℚ) (line : List Char)
    (phrases : List (List Char)) (x y lineHeight : ℚ) : List DrawEvent :=
  let startX := x - width line / 2
  (phrases.map (fun ph =>
    (lineScan line ph).map (fun i =>
      DrawEvent.rect (startX + width (line.take i)) (y + lineHeight * (2/5))
        (width ((line.drop i).take ph.length)) (lineHeight * (9/20))))).flatten
    ++ [DrawEvent.text line startX y]

/-- The drawing actions for the whole line block, advancing `currentY` by
`lineHeight` per line. -/
def drawHeadlineEvents (width : List Char → ℚ) :
    List (List Char) → List (List Char) → ℚ → ℚ → ℚ → List DrawEvent
  | [], _, _, _, _ => []
  | l :: ls, phrases, x, y, lineHeight =>
    drawLineEvents width l phrases x y lineHeight ++
      drawHeadlineEvents width ls phrases x (y + lineHeight) lineHeight

/-- C6: the highlight scan is case-insensitive and finds exactly the set of
ALL starting offsets at which the phrase occurs in the line, overlapping
ones included; and within one line's drawing actions every highlight
rectangle precedes the single text action, which comes last. -/
theorem C6_highlight_scan (width : List Char → ℚ) (line ph : List Char)
    (phrases : List (List Char)) (x y lineHeight : ℚ) (hph : ph ≠ []) :
    (∀ i, i ∈ lineScan line ph ↔
        occursAt (ph.map Char.toLower) (line.map Char.toLower) i) ∧
    ((drawLineEvents width line phrases x y lineHeight).getLast? =
        some (DrawEvent.text line (x - width line / 2) y) ∧
      ∀ e ∈ (drawLineEvents width line phrases x y lineHeight).dropLast,
        ∃ a b c d, e = DrawEvent.rect a b c d) := by
  refine ⟨?_, ?_, ?_⟩
  · intro i
    have hp' : ph.map Char.toLower ≠ [] := by
      intro hc
      exact hph (List.map_eq_nil_iff.mp hc)
    rw [lineScan, scanOffsets_iff (line.map Char.toLower) (ph.map Char.toLower) hp' 0 i]
    simp
  · rw [drawLineEvents]
    exact List.getLast?_concat _
  · intro e he
    rw [drawLineEvents, List.dropLast_concat] at he
    rcases List.mem_flatten.mp he with ⟨l', hl', hel'⟩
    rcases List.mem_map.mp hl' with ⟨ph', _, rfl⟩
    rcases List.mem_map.mp hel' with ⟨i, _, rfl⟩
    exact ⟨_, _, _, _, rfl⟩

/-- Closed instance of C6 on line "aAa" and phrase "AA": both overlapping
offsets qualify case-insensitively, and the line's rectangles precede its
text action. -/
theorem C6_highlight_scan_witness :
    (∀ i, i ∈ lineScan ['a', 'A', 'a'] ['A', 'A'] ↔
        occursAt (['A', 'A'].map Char.toLower) (['a', 'A', 'a'].map Char.toLower) i) ∧
    ((drawLineEvents (fun l => (l.length : ℚ)) ['a', 'A', 'a'] [['A', 'A']]
          540 60 24).getLast? =
        some (DrawEvent.text ['a', 'A', 'a']
          (540 - (fun l => ((l.length : ℕ) : ℚ)) ['a', 'A', 'a'] / 2) 60) ∧
      ∀ e ∈ (drawLineEvents (fun l => (l.length : ℚ)) ['a', 'A', 'a']
          [['A', 'A']] 540 60 24).dropLast,
        ∃ a b c d, e = DrawEvent.rect a b c d) :=
  C6_highlight_scan (fun l => (l.length : ℚ)) ['a', 'A', 'a'] ['A', 'A']
    [['A', 'A']] 540 60 24 (by decide)

end AutoSrv
